import Mathlib

/-!
# Verification of the wp-ai-indexer ingestion pipeline

Shallow embedding of the core components of the `kanopi/wp-ai-indexer`
repository (vector-id scheme, reconciliation diff of `Indexer.clean`,
the chunker, the circuit breaker, the retry policy, the rate limiter,
the bounded-concurrency executor and the `Indexer.index` orchestration),
together with proofs and refutations of the specification's claims.

Machine integers of the source (JavaScript numbers) are modelled as `Nat`,
`Int` or `ℚ` as appropriate; fallible operations return `Option`/`Except`.
-/

/-! ## Decimal printing and parsing

The source interpolates numbers into vector ids with JS template strings
(`post-${postId}-chunk-${chunkIndex}`, src/pinecone.ts `createVectorId`)
and recovers them with `parseInt(match[1], 10)` (src/indexer.ts `clean`).
`natDigits` is the standard decimal printer (fuel-structured so that the
kernel can evaluate it), `digitsToNat` is `parseInt` restricted to an
all-digit string, exactly the strings the anchored regex
`/^post-(\d+)-chunk-\d+$/` lets through. -/

def natDigitsAux : Nat → Nat → List Char
  | 0, _ => []
  | fuel + 1, n =>
    if n < 10 then [Nat.digitChar n]
    else natDigitsAux fuel (n / 10) ++ [Nat.digitChar (n % 10)]

def natDigits (n : Nat) : List Char :=
  natDigitsAux (n + 1) n

def digitsToNat (cs : List Char) : Nat :=
  cs.foldl (fun acc c => acc * 10 + (c.toNat - '0'.toNat)) 0

/-- `PineconeManager.createVectorId` (src/pinecone.ts):
`return \x7bpost-${postId}-chunk-${chunkIndex}\x7d`. -/
def createVectorId (postId chunkIndex : Nat) : String :=
  String.mk ("post-".data ++ natDigits postId ++ "-chunk-".data ++ natDigits chunkIndex)

/-- The id → postId direction used by `Indexer.clean` (src/indexer.ts):
`const vectorIdPattern = /^post-(\d+)-chunk-\d+$/;` followed by
`parseInt(match[1], 10)` on a successful match, `none` otherwise.
Because `-` is not a digit, the greedy `\d+` is equivalent to `takeWhile`. -/
def parsePostVectorId (s : String) : Option Nat :=
  let cs := s.data
  if cs.take 5 = "post-".data then
    let rest := cs.drop 5
    let ds := rest.takeWhile Char.isDigit
    let tl := rest.drop ds.length
    if ds ≠ [] ∧ tl.take 7 = "-chunk-".data ∧ tl.drop 7 ≠ [] ∧ (tl.drop 7).all Char.isDigit then
      some (digitsToNat ds)
    else none
  else none

/-! ## The reconciliation diff of `Indexer.clean`

`clean` (src/indexer.ts lines 241-284) parses every enumerated domain
vector id with the pattern above, collects the distinct parsed post ids in
first-occurrence order (a JS `Set` iterates in insertion order), groups the
matching vector ids per post id in enumeration order (the
`postIdToVectorIds` map), and deletes the groups of every post id absent
from the live WordPress id set. -/

def firstDedup (l : List Nat) : List Nat :=
  l.foldl (fun acc a => if a ∈ acc then acc else acc ++ [a]) []

def vectorIdsOfPost (allVectorIds : List String) (postId : Nat) : List String :=
  allVectorIds.filter (fun s => parsePostVectorId s = some postId)

def vectorIdsToDelete (wpPostIds : List Nat) (allVectorIds : List String) : List String :=
  let pineconePostIds := firstDedup (allVectorIds.filterMap parsePostVectorId)
  (pineconePostIds.filter (fun p => ¬ p ∈ wpPostIds)).flatMap (vectorIdsOfPost allVectorIds)

/-- The store contents after `clean` ran `deleteByVectorIds` on the diff:
ids in the deletion list are removed, everything else is untouched
(`deleteMany` by explicit id list, src/pinecone.ts `deleteByVectorIds`). -/
def cleanStoreResult (wpPostIds : List Nat) (store : List String) : List String :=
  store.filter (fun s => ¬ s ∈ vectorIdsToDelete wpPostIds store)

/-! ### Lemmas about decimal printing/parsing -/

lemma natDigitsAux_ne_nil {fuel n : Nat} (h : n < fuel) : natDigitsAux fuel n ≠ [] := by
  cases fuel with
  | zero => omega
  | succ f =>
    simp only [natDigitsAux]
    split
    · simp
    · simp

lemma digitChar_isDigit {n : Nat} (h : n < 10) : (Nat.digitChar n).isDigit = true := by
  interval_cases n <;> decide

lemma digitChar_toNat {n : Nat} (h : n < 10) : (Nat.digitChar n).toNat - '0'.toNat = n := by
  interval_cases n <;> decide

lemma natDigitsAux_all_digit :
    ∀ fuel n, n < fuel → ∀ c ∈ natDigitsAux fuel n, c.isDigit = true := by
  intro fuel
  induction fuel with
  | zero => intro n h; omega
  | succ f ih =>
    intro n h c hc
    simp only [natDigitsAux] at hc
    split at hc
    · rename_i h10
      simp at hc
      subst hc
      exact digitChar_isDigit h10
    · rename_i h10
      rcases List.mem_append.1 hc with h1 | h2
      · exact ih (n / 10) (by omega) c h1
      · simp at h2
        subst h2
        exact digitChar_isDigit (Nat.mod_lt _ (by omega))

lemma digitsToNat_append (xs ys : List Char) :
    digitsToNat (xs ++ ys) =
      ys.foldl (fun acc c => acc * 10 + (c.toNat - '0'.toNat)) (digitsToNat xs) := by
  simp [digitsToNat, List.foldl_append]

lemma digitsToNat_natDigitsAux :
    ∀ fuel n, n < fuel → digitsToNat (natDigitsAux fuel n) = n := by
  intro fuel
  induction fuel with
  | zero => intro n h; omega
  | succ f ih =>
    intro n h
    simp only [natDigitsAux]
    split
    · rename_i h10
      simpa [digitsToNat] using digitChar_toNat h10
    · rename_i h10
      push_neg at h10
      have hdiv : n / 10 < f := by
        have := Nat.div_lt_self (show 0 < n by omega) (show 1 < 10 by omega)
        omega
      rw [digitsToNat_append, ih (n / 10) hdiv]
      simp only [List.foldl_cons, List.foldl_nil]
      rw [digitChar_toNat (Nat.mod_lt _ (by omega))]
      omega

lemma natDigits_ne_nil (n : Nat) : natDigits n ≠ [] :=
  natDigitsAux_ne_nil (Nat.lt_succ_self n)

lemma natDigits_all_digit (n : Nat) : ∀ c ∈ natDigits n, c.isDigit = true :=
  natDigitsAux_all_digit (n + 1) n (Nat.lt_succ_self n)

lemma digitsToNat_natDigits (n : Nat) : digitsToNat (natDigits n) = n :=
  digitsToNat_natDigitsAux (n + 1) n (Nat.lt_succ_self n)

lemma takeWhile_digits_append {xs : List Char} (hxs : ∀ c ∈ xs, c.isDigit = true)
    {y : Char} (hy : y.isDigit = false) (rest : List Char) :
    (xs ++ y :: rest).takeWhile Char.isDigit = xs := by
  induction xs with
  | nil => simp [List.takeWhile, hy]
  | cons a l ih =>
    have ha : a.isDigit = true := hxs a (by simp)
    simp only [List.cons_append, List.takeWhile_cons, ha, if_true]
    rw [ih (fun c hc => hxs c (by simp [hc]))]

lemma parse_createVectorId (d n : Nat) :
    parsePostVectorId (createVectorId d n) = some d := by
  have hdata : (createVectorId d n).data =
      "post-".data ++ (natDigits d ++ ("-chunk-".data ++ natDigits n)) := by
    simp [createVectorId]
  have h5 : ("post-".data).length = 5 := by decide
  have hdash : ('-' : Char).isDigit = false := by decide
  have hchunk : "-chunk-".data = '-' :: "chunk-".data := by decide
  simp only [parsePostVectorId, hdata]
  rw [← h5, List.take_left, List.drop_left]
  have htw : (natDigits d ++ ("-chunk-".data ++ natDigits n)).takeWhile Char.isDigit
      = natDigits d := by
    rw [hchunk]
    exact takeWhile_digits_append (natDigits_all_digit d) hdash _
  rw [htw, if_pos rfl, List.drop_left]
  have h7 : ("-chunk-".data).length = 7 := by decide
  rw [← h7, List.take_left, List.drop_left]
  rw [if_pos ⟨natDigits_ne_nil d, rfl, natDigits_ne_nil n,
    List.all_eq_true.2 (fun c hc => natDigits_all_digit n c hc)⟩]
  rw [digitsToNat_natDigits]

lemma mem_foldl_dedup (l : List Nat) :
    ∀ acc x, (x ∈ l.foldl (fun acc a => if a ∈ acc then acc else acc ++ [a]) acc)
      ↔ x ∈ acc ∨ x ∈ l := by
  induction l with
  | nil => intro acc x; simp
  | cons a t ih =>
    intro acc x
    simp only [List.foldl_cons]
    rw [ih]
    by_cases ha : a ∈ acc
    · simp only [if_pos ha, List.mem_cons]
      constructor
      · rintro (h | h)
        · exact Or.inl h
        · exact Or.inr (Or.inr h)
      · rintro (h | h | h)
        · exact Or.inl h
        · exact Or.inl (h ▸ ha)
        · exact Or.inr h
    · simp only [if_neg ha, List.mem_append, List.mem_singleton, List.mem_cons]
      tauto

lemma mem_firstDedup {l : List Nat} {x : Nat} : x ∈ firstDedup l ↔ x ∈ l := by
  rw [firstDedup, mem_foldl_dedup]
  simp

lemma mem_vectorIdsToDelete {wp : List Nat} {ids : List String} {s : String} :
    s ∈ vectorIdsToDelete wp ids ↔
      s ∈ ids ∧ ∃ p, parsePostVectorId s = some p ∧ p ∉ wp := by
  simp only [vectorIdsToDelete, List.mem_flatMap, List.mem_filter, mem_firstDedup,
    List.mem_filterMap, vectorIdsOfPost, decide_eq_true_eq, decide_not, Bool.not_eq_true',
    decide_eq_false_iff_not]
  constructor
  · rintro ⟨p, ⟨⟨s', hs', hp'⟩, hpw⟩, hsmem, hps⟩
    exact ⟨hsmem, p, hps, hpw⟩
  · rintro ⟨hsmem, p, hps, hpw⟩
    exact ⟨p, ⟨⟨s, hsmem, hps⟩, hpw⟩, hsmem, hps⟩

/-! ### Claims C1, C2, C10 -/

/-- C1, counterexample: the id produced for document 1, chunk 0 is not
`doc-1-chunk-0` as the claim states — the source's scheme uses the prefix
`post-`, not `doc-`. -/
theorem C1_counterexample : createVectorId 1 0 ≠ "doc-1-chunk-0" := by decide

/-- C1 (amended): for every document id `d` and chunk sequence index `n`
the vector id produced when indexing chunk `n` of document `d` is exactly
the string `post-{d}-chunk-{n}`, and the derivation is reversible: parsing
the id with the pattern used by cleanup (`/^post-(\d+)-chunk-\d+$/`)
recovers `d`. -/
theorem C1_vector_id_scheme :
    (∀ d n, parsePostVectorId (createVectorId d n) = some d) ∧
      createVectorId 123 45 = "post-123-chunk-45" :=
  ⟨parse_createVectorId, by decide⟩

/-- C2, counterexample: on the claim's concrete instance — live ids `{1,2}`
and store ids `{doc-1-chunk-0, doc-2-chunk-0, doc-5-chunk-0, doc-5-chunk-1}`
— `clean()` does not delete `doc-5-chunk-0` (the claim says it deletes
exactly `{doc-5-chunk-0, doc-5-chunk-1}`): none of these ids match the
reconciliation pattern `/^post-(\d+)-chunk-\d+$/`, so nothing is deleted. -/
theorem C2_counterexample :
    "doc-5-chunk-0" ∉
      vectorIdsToDelete [1, 2]
        ["doc-1-chunk-0", "doc-2-chunk-0", "doc-5-chunk-0", "doc-5-chunk-1"] := by
  decide

/-- C2 (amended): `clean()` deletes exactly those enumerated vector ids
whose parsed document id is absent from the live set, leaves every vector
id of a live document untouched, and in particular for live ids `{1,2}`
and store ids `{post-1-chunk-0, post-2-chunk-0, post-5-chunk-0,
post-5-chunk-1}` it deletes exactly `{post-5-chunk-0, post-5-chunk-1}`. -/
theorem C2_reconciliation :
    (∀ (wp : List Nat) (ids : List String) (s : String),
        s ∈ vectorIdsToDelete wp ids ↔
          s ∈ ids ∧ ∃ p, parsePostVectorId s = some p ∧ p ∉ wp) ∧
    (∀ (wp : List Nat) (store : List String) (s : String) (p : Nat),
        s ∈ store → parsePostVectorId s = some p → p ∈ wp →
          s ∈ cleanStoreResult wp store) ∧
    vectorIdsToDelete [1, 2]
        ["post-1-chunk-0", "post-2-chunk-0", "post-5-chunk-0", "post-5-chunk-1"] =
      ["post-5-chunk-0", "post-5-chunk-1"] := by
  refine ⟨fun wp ids s => mem_vectorIdsToDelete, ?_, by decide⟩
  intro wp store s p hs hp hpw
  simp only [cleanStoreResult, List.mem_filter, decide_not, Bool.not_eq_true',
    decide_eq_false_iff_not]
  refine ⟨hs, fun hdel => ?_⟩
  rcases mem_vectorIdsToDelete.1 hdel with ⟨-, p', hp', hpw'⟩
  rw [hp] at hp'
  exact hpw' ((Option.some_injective _ hp').symm ▸ hpw)

/-- C2 witness: live post 7 is untouched by clean. -/
theorem C2_witness :
    "post-7-chunk-0" ∈ cleanStoreResult [7] ["post-7-chunk-0"] :=
  C2_reconciliation.2.1 [7] ["post-7-chunk-0"] "post-7-chunk-0" 7
    (by decide) (by decide) (by decide)

/-- C10: `clean()` never deletes a vector whose id does not match the
pattern `post-{digits}-chunk-{digits}`: an enumerated id that fails to
parse is excluded from the deletion set and survives in the store,
regardless of the live document set. -/
theorem C10_unparsed_ids_untouched :
    ∀ (wp : List Nat) (store : List String) (s : String),
      s ∈ store → parsePostVectorId s = none →
        s ∉ vectorIdsToDelete wp store ∧ s ∈ cleanStoreResult wp store := by
  intro wp store s hs hnone
  have hnotdel : s ∉ vectorIdsToDelete wp store := by
    intro hdel
    rcases mem_vectorIdsToDelete.1 hdel with ⟨-, p, hp, -⟩
    rw [hnone] at hp
    exact Option.noConfusion hp
  refine ⟨hnotdel, ?_⟩
  simp only [cleanStoreResult, List.mem_filter, decide_not, Bool.not_eq_true',
    decide_eq_false_iff_not]
  exact ⟨hs, hnotdel⟩

/-- C10 witness: the malformed id `doc-1-chunk-0` is never deleted. -/
theorem C10_witness :
    "doc-1-chunk-0" ∉ vectorIdsToDelete [] ["doc-1-chunk-0"] ∧
      "doc-1-chunk-0" ∈ cleanStoreResult [] ["doc-1-chunk-0"] :=
  C10_unparsed_ids_untouched [] ["doc-1-chunk-0"] "doc-1-chunk-0"
    (by decide) (by decide)

/-! ## The chunker (src/chunking.ts, `Chunker.chunkContent` / `findBreakPoint`)

Strings are modelled as `List Char`; positions are `Nat`, except where the
JS code compares possibly negative quantities, which are modelled as `Int`
(`-1` sentinels, `endPosition - chunkOverlap`). `Math.floor(chunkSize*0.2)`
equals `chunkSize / 5` in exact arithmetic (the double rounding error of
`0.2` is far too small to move the floor for any admissible chunk size).
JS `\s` is modelled by the ASCII whitespace class, which is exact for the
inputs considered here. -/

def isWsChar (c : Char) : Bool :=
  c = ' ' || c = '\t' || c = '\n' || c = '\r'

def sentencePunct (c : Char) : Bool :=
  c = '.' || c = '!' || c = '?'

/-- `content.replace(/\s+/g, ' ')`: every maximal whitespace run becomes a
single space. The boolean flag records whether the previous character was
part of a (already replaced) whitespace run. -/
def collapseWsAux : Bool → List Char → List Char
  | _, [] => []
  | prevWs, c :: cs =>
    if isWsChar c then
      if prevWs then collapseWsAux true cs
      else ' ' :: collapseWsAux true cs
    else c :: collapseWsAux false cs

def collapseWs (l : List Char) : List Char :=
  collapseWsAux false l

/-- JS `String.prototype.trim` (whitespace stripped at both ends). -/
def trimChars (l : List Char) : List Char :=
  ((l.dropWhile isWsChar).reverse.dropWhile isWsChar).reverse

/-- Index of the last match of the two-character regex `[.!?]\s` in a
region (the matches cannot overlap, so the `exec` scan finds the last
index `i` with punctuation at `i` followed by whitespace at `i+1`). -/
def lastMatchIdx2 (p : Char → Char → Bool) (l : List Char) : Option Nat :=
  (List.range l.length).foldl
    (fun acc i =>
      match l.get? i, l.get? (i + 1) with
      | some a, some b => if p a b then some i else acc
      | _, _ => acc)
    none

/-- Index of the last match of the one-character regex `\s` in a region. -/
def lastMatchIdx1 (p : Char → Bool) (l : List Char) : Option Nat :=
  (List.range l.length).foldl
    (fun acc i =>
      match l.get? i with
      | some a => if p a then some i else acc
      | none => acc)
    none

/-- `Chunker.findBreakPoint(content, start, idealEnd)`. The `-1`
initialisations of `lastSentenceEnd` / `lastWordBoundary` and the strict
`> start` comparisons are mirrored with `Int`. -/
def findBreakPoint (chunkSize : Nat) (content : List Char) (start idealEnd : Nat) : Nat :=
  let searchStart := idealEnd - chunkSize / 5
  let searchRegion := (content.drop searchStart).take (idealEnd - searchStart)
  let lastSentenceEnd : Int :=
    match lastMatchIdx2 (fun a b => sentencePunct a && isWsChar b) searchRegion with
    | some i => (searchStart + i + 1 : Nat)
    | none => -1
  if (start : Int) < lastSentenceEnd then lastSentenceEnd.toNat
  else
    let lastWordBoundary : Int :=
      match lastMatchIdx1 isWsChar searchRegion with
      | some i => (searchStart + i : Nat)
      | none => -1
    if (start : Int) < lastWordBoundary then lastWordBoundary.toNat
    else idealEnd

/-- A produced chunk together with the source span it was sliced from
(`startPos`/`endPos` are the `content.slice(position, endPosition)`
arguments; `text` is the trimmed slice, `idx` the chunk index). -/
structure ChunkRec where
  text : List Char
  idx : Nat
  startPos : Nat
  endPos : Nat
deriving DecidableEq, Repr

/-- The `while (position < content.length)` loop of `chunkContent`,
fuel-structured. The cursor advance mirrors the source:
`position = endPosition - chunkOverlap` (an `Int`, JS numbers can go
negative), then `if (position <= chunks[chunks.length - 1]?.text.length)
position = endPosition`. When no chunk has been emitted yet the optional
chain yields `undefined` and the JS comparison is false, so the raw cursor
is kept; `Int.toNat` clamping matters only in that (unreachable for
normalized nonempty content) corner, since an emitted last chunk makes the
guard catch every nonpositive cursor. -/
def chunkLoop (chunkSize chunkOverlap : Nat) (content : List Char) :
    Nat → Nat → Nat → List ChunkRec → Option (List ChunkRec)
  | 0, _, _, _ => none
  | fuel + 1, position, chunkIndex, chunks =>
    if position < content.length then
      let naiveEnd := position + chunkSize
      let endPosition :=
        if naiveEnd < content.length then findBreakPoint chunkSize content position naiveEnd
        else content.length
      let chunkText := trimChars ((content.drop position).take (endPosition - position))
      let chunks' := if 0 < chunkText.length
        then chunks ++ [⟨chunkText, chunkIndex, position, endPosition⟩] else chunks
      let chunkIndex' := if 0 < chunkText.length then chunkIndex + 1 else chunkIndex
      if endPosition < content.length then
        let rawNext : Int := (endPosition : Int) - (chunkOverlap : Int)
        let position' : Nat :=
          match chunks'.getLast? with
          | some last => if rawNext ≤ (last.text.length : Int) then endPosition else rawNext.toNat
          | none => rawNext.toNat
        chunkLoop chunkSize chunkOverlap content fuel position' chunkIndex' chunks'
      else some chunks'
    else some chunks

/-- `Chunker.chunkContent`: normalize whitespace, trim, return a single
chunk when the normalized text fits, otherwise run the chunking loop.
The fuel bound only matters because the source loop can genuinely fail to
terminate; every terminating run of at most `len² + 1` iterations is
represented. -/
def chunkContent (chunkSize chunkOverlap : Nat) (raw : List Char) : Option (List ChunkRec) :=
  let content := trimChars (collapseWs raw)
  if content.length ≤ chunkSize then some [⟨content, 0, 0, content.length⟩]
  else chunkLoop chunkSize chunkOverlap content
    (content.length * content.length + 1) 0 0 []

/-! ### Claims C3 and C8 -/

lemma chunkLoop_text_ne_nil (s o : Nat) (content : List Char) :
    ∀ (fuel position chunkIndex : Nat) (chunks r : List ChunkRec),
      (∀ c ∈ chunks, c.text ≠ []) →
      chunkLoop s o content fuel position chunkIndex chunks = some r →
      ∀ c ∈ r, c.text ≠ [] := by
  intro fuel
  induction fuel with
  | zero => intro _ _ _ _ _ hr; simp [chunkLoop] at hr
  | succ f ih =>
    intro position chunkIndex chunks r hinv hr
    have haux : ∀ (t : List Char) (i a b : Nat),
        ∀ c ∈ (if 0 < t.length then chunks ++ [⟨t, i, a, b⟩] else chunks), c.text ≠ [] := by
      intro t i a b c hc
      split at hc
      · rcases List.mem_append.1 hc with h1 | h2
        · exact hinv c h1
        · rename_i hlen
          simp at h2
          subst h2
          simp only [ne_eq]
          intro habs
          rw [habs] at hlen
          simp at hlen
      · exact hinv c hc
    simp only [chunkLoop] at hr
    split at hr
    · split at hr <;> split at hr
      · exact ih _ _ _ r (haux _ _ _ _) hr
      · injection hr with hr
        subst hr
        exact haux _ _ _ _
      · exact ih _ _ _ r (haux _ _ _ _) hr
      · injection hr with hr
        subst hr
        exact haux _ _ _ _
    · injection hr with hr
      subst hr
      exact hinv

set_option maxRecDepth 10000 in
/-- C3 is a code bug, witnessed by evaluation: with `chunkSize = 100`,
`chunkOverlap = 99` and a 210-character input whose only sentence break
sits at position 189, `chunkContent` emits chunks whose source start
positions are `0, 100, 91, 190` — the cursor moves backward from 100 to 91
even though the guard in the source is commented
`// Ensure we don't move backwards`. The spans also show a third chunk
`[91,190)` almost entirely re-covering the second `[100,190)`. -/
theorem C3_backward_cursor_eval :
    (chunkContent 100 99 (List.replicate 189 'a' ++ ['.', ' '] ++ List.replicate 19 'a')).map
        (List.map ChunkRec.startPos) = some [0, 100, 91, 190] ∧
      ¬ List.Chain' (· < ·) [0, 100, 91, 190] :=
  ⟨by decide, by simp [List.chain'_cons]⟩

/-- C8, counterexample: for the empty input, `chunkContent` takes the
`content.length <= chunkSize` branch and returns a single chunk whose text
is empty — the claim that every returned chunk is nonempty post-trim for
every input (including empty/whitespace-only) fails. -/
theorem C8_counterexample :
    chunkContent 100 0 [] = some [⟨[], 0, 0, 0⟩] ∧
      ¬ (∀ r, chunkContent 100 0 [] = some r → ∀ c ∈ r, c.text ≠ []) := by
  refine ⟨by decide, fun h => ?_⟩
  exact h [⟨[], 0, 0, 0⟩] (by decide) ⟨[], 0, 0, 0⟩ (by simp) rfl

/-- C8 (amended): for every input whose normalized text is nonempty, every
chunk in the returned list has nonempty (trimmed) text: empty chunks are
dropped inside the loop, and the single-chunk branch copies the nonempty
normalized text. For empty or whitespace-only input the function instead
returns one chunk with empty text. -/
theorem C8_nonempty_chunks :
    ∀ (s o : Nat) (raw : List Char) (r : List ChunkRec),
      chunkContent s o raw = some r →
      trimChars (collapseWs raw) ≠ [] →
      ∀ c ∈ r, c.text ≠ [] := by
  intro s o raw r hr hne
  simp only [chunkContent] at hr
  split at hr
  · injection hr with hr
    subst hr
    intro c hc
    simp at hc
    subst hc
    exact hne
  · exact chunkLoop_text_ne_nil s o _ _ _ _ [] r (by simp) hr

/-- C8 witness: chunking `"hi"` yields the single chunk `hi`, nonempty. -/
theorem C8_witness : (⟨['h', 'i'], 0, 0, 2⟩ : ChunkRec).text ≠ [] :=
  C8_nonempty_chunks 100 0 "hi".data [⟨['h', 'i'], 0, 0, 2⟩]
    (by decide) (by decide) _ (by simp)

/-! ## The circuit breaker (src/utils.ts, `CircuitBreaker.execute`)

One call to `execute` is a pure step on the breaker state, parameterised
by the wall clock reading `now` (`Date.now()`; the source reads the clock
once for the open-timeout check and once on failure, within one
synchronous call, modelled as the same reading) and by whether the wrapped
operation would succeed. The result distinguishes the immediate
`Circuit breaker is open` error (operation never invoked) from an actual
invocation. `now - lastFailureTime` is compared over `Int`, as in JS. -/

inductive CBStatus where
  | closed
  | opened
  | halfOpen
deriving DecidableEq, Repr

structure CBState where
  failureCount : Nat
  lastFailureTime : Nat
  status : CBStatus
deriving DecidableEq, Repr

inductive CBResult where
  | openError
  | invoked (success : Bool)
deriving DecidableEq, Repr

/-- The `try`/`catch` part of `execute` after the open-state check: invoke
the operation; on success a half-open breaker closes and zeroes the
counter; on failure increment the counter, record the failure time and
open the breaker when the threshold is reached. -/
def cbAttempt (threshold : Nat) (st : CBState) (now : Nat) (fnSucceeds : Bool) :
    CBResult × CBState :=
  if fnSucceeds then
    if st.status = CBStatus.halfOpen then
      (CBResult.invoked true, { st with status := CBStatus.closed, failureCount := 0 })
    else (CBResult.invoked true, st)
  else
    let fc := st.failureCount + 1
    if threshold ≤ fc then
      (CBResult.invoked false, ⟨fc, now, CBStatus.opened⟩)
    else (CBResult.invoked false, ⟨fc, now, st.status⟩)

/-- `CircuitBreaker.execute`: an open breaker either rejects immediately
(within `resetTimeout` of the last failure) or transitions to half-open
and lets the call through. -/
def cbExecute (threshold resetTimeout : Nat) (st : CBState) (now : Nat) (fnSucceeds : Bool) :
    CBResult × CBState :=
  if st.status = CBStatus.opened then
    if (resetTimeout : Int) ≤ (now : Int) - (st.lastFailureTime : Int) then
      cbAttempt threshold { st with status := CBStatus.halfOpen } now fnSucceeds
    else (CBResult.openError, st)
  else cbAttempt threshold st now fnSucceeds

/-- A sequence of `execute` calls, each given by a clock reading and the
would-be outcome of the wrapped operation. -/
def cbSteps (threshold resetTimeout : Nat) (st : CBState) (calls : List (Nat × Bool)) :
    CBState :=
  calls.foldl (fun s c => (cbExecute threshold resetTimeout s c.1 c.2).2) st

lemma cbExecute_fail_opened (threshold resetTimeout : Nat) (st : CBState) (t : Nat)
    (ho : st.status = CBStatus.opened) (hc : threshold ≤ st.failureCount) :
    ((cbExecute threshold resetTimeout st t false).2).status = CBStatus.opened ∧
      threshold ≤ ((cbExecute threshold resetTimeout st t false).2).failureCount := by
  simp only [cbExecute]
  rw [if_pos ho]
  split
  · simp only [cbAttempt]
    rw [if_neg (by simp), if_pos (by omega : threshold ≤ st.failureCount + 1)]
    refine ⟨rfl, ?_⟩
    show threshold ≤ st.failureCount + 1
    omega
  · exact ⟨ho, hc⟩

lemma cbSteps_fail_opened (threshold resetTimeout : Nat) :
    ∀ (ts : List Nat) (st : CBState),
      st.status = CBStatus.opened → threshold ≤ st.failureCount →
      (cbSteps threshold resetTimeout st (ts.map (fun t => (t, false)))).status
          = CBStatus.opened ∧
        threshold ≤ (cbSteps threshold resetTimeout st (ts.map (fun t => (t, false)))).failureCount := by
  intro ts
  induction ts with
  | nil => intro st ho hc; exact ⟨ho, hc⟩
  | cons t rest ih =>
    intro st ho hc
    have hstep := cbExecute_fail_opened threshold resetTimeout st t ho hc
    simpa [cbSteps] using ih _ hstep.1 hstep.2

lemma cbSteps_reach_opened (threshold resetTimeout : Nat) :
    ∀ (ts : List Nat) (c0 t0 : Nat),
      c0 < threshold → threshold ≤ c0 + ts.length →
      (cbSteps threshold resetTimeout ⟨c0, t0, CBStatus.closed⟩
          (ts.map (fun t => (t, false)))).status = CBStatus.opened ∧
        threshold ≤ (cbSteps threshold resetTimeout ⟨c0, t0, CBStatus.closed⟩
          (ts.map (fun t => (t, false)))).failureCount := by
  intro ts
  induction ts with
  | nil => intro c0 t0 hlt hle; simp at hle; omega
  | cons t rest ih =>
    intro c0 t0 hlt hle
    have hexec : (cbExecute threshold resetTimeout ⟨c0, t0, CBStatus.closed⟩ t false).2
        = if threshold ≤ c0 + 1 then ⟨c0 + 1, t, CBStatus.opened⟩
          else ⟨c0 + 1, t, CBStatus.closed⟩ := by
      simp only [cbExecute, cbAttempt]
      rw [if_neg (by simp)]
      rw [if_neg (by simp)]
      split <;> rfl
    simp only [List.map_cons, cbSteps, List.foldl_cons] at *
    rw [hexec]
    by_cases hth : threshold ≤ c0 + 1
    · rw [if_pos hth]
      exact cbSteps_fail_opened threshold resetTimeout rest _ rfl (by simpa using hth)
    · rw [if_neg hth]
      exact ih (c0 + 1) t (by omega) (by simp at hle ⊢; omega)

/-- C4: circuit breaker state machine. (1) Starting closed with a zero
counter, `failureThreshold` consecutive failed invocations leave the
breaker open; (2) while open and within `resetTimeout` of the last
failure, every call returns the distinguished breaker-open error without
invoking the operation and without changing the state; (3) once
`resetTimeout` has elapsed the next call is let through: on success the
breaker closes with the failure counter zeroed, (4) on failure it returns
to open and restarts the open-timer (`lastFailureTime := now`; the
threshold bound on the counter is the reachability invariant of every
open state). -/
theorem C4_circuit_breaker :
    ∀ (threshold resetTimeout : Nat) (st : CBState) (now : Nat) (b : Bool)
      (ts : List Nat) (t0 : Nat),
      (0 < threshold → threshold ≤ ts.length →
        (cbSteps threshold resetTimeout ⟨0, t0, CBStatus.closed⟩
            (ts.map (fun t => (t, false)))).status = CBStatus.opened) ∧
      (st.status = CBStatus.opened →
        (now : Int) - (st.lastFailureTime : Int) < (resetTimeout : Int) →
        cbExecute threshold resetTimeout st now b = (CBResult.openError, st)) ∧
      (st.status = CBStatus.opened →
        (resetTimeout : Int) ≤ (now : Int) - (st.lastFailureTime : Int) →
        cbExecute threshold resetTimeout st now true
          = (CBResult.invoked true, ⟨0, st.lastFailureTime, CBStatus.closed⟩)) ∧
      (st.status = CBStatus.opened →
        (resetTimeout : Int) ≤ (now : Int) - (st.lastFailureTime : Int) →
        threshold ≤ st.failureCount + 1 →
        cbExecute threshold resetTimeout st now false
          = (CBResult.invoked false, ⟨st.failureCount + 1, now, CBStatus.opened⟩)) := by
  intro threshold resetTimeout st now b ts t0
  refine ⟨fun hth hlen => ?_, fun ho hlt => ?_, fun ho hle => ?_, fun ho hle hth => ?_⟩
  · exact (cbSteps_reach_opened threshold resetTimeout ts 0 t0 hth (by omega)).1
  · simp only [cbExecute]
    rw [if_pos ho, if_neg (by omega)]
  · simp only [cbExecute]
    rw [if_pos ho, if_pos hle]
    simp [cbAttempt]
  · simp only [cbExecute]
    rw [if_pos ho, if_pos hle]
    simp [cbAttempt, hth]

/-- C4 witness: threshold 2, resetTimeout 10: two failures open the
breaker; at `now = 5` (elapsed 3) it rejects without invoking; at
`now = 12` (elapsed 10) the call passes — success closes and zeroes the
counter, failure re-opens with a fresh timer. -/
theorem C4_witness :
    (cbSteps 2 10 ⟨0, 0, CBStatus.closed⟩ [(1, false), (2, false)]).status
        = CBStatus.opened ∧
      cbExecute 2 10 ⟨2, 2, CBStatus.opened⟩ 5 true
        = (CBResult.openError, ⟨2, 2, CBStatus.opened⟩) ∧
      cbExecute 2 10 ⟨2, 2, CBStatus.opened⟩ 12 true
        = (CBResult.invoked true, ⟨0, 2, CBStatus.closed⟩) ∧
      cbExecute 2 10 ⟨2, 2, CBStatus.opened⟩ 12 false
        = (CBResult.invoked false, ⟨3, 12, CBStatus.opened⟩) :=
  ⟨(C4_circuit_breaker 2 10 ⟨2, 2, CBStatus.opened⟩ 5 true [1, 2] 0).1
      (by decide) (by decide),
   (C4_circuit_breaker 2 10 ⟨2, 2, CBStatus.opened⟩ 5 true [1, 2] 0).2.1
      rfl (by decide),
   (C4_circuit_breaker 2 10 ⟨2, 2, CBStatus.opened⟩ 12 true [1, 2] 0).2.2.1
      rfl (by decide),
   (C4_circuit_breaker 2 10 ⟨2, 2, CBStatus.opened⟩ 12 false [1, 2] 0).2.2.2
      rfl (by decide) (by decide)⟩

/-! ## Retry with exponential backoff (src/utils.ts, `retryWithBackoff` /
`isRetryableError`)

A JavaScript error is modelled by its `status` and `code` fields (absent
fields are `none`; JS truthiness makes `status: 0` fall through to the
code check). The fallible operation is a function from the attempt number
to its outcome, `Math.random()` is a `ℚ`-valued oracle per attempt, and
the executor returns the final outcome, the number of invocations of the
operation, and the list of sleeps (`Math.floor(delay + jitter)`, in ms)
it performed. -/

structure JsError where
  status : Option Nat
  code : Option String
deriving DecidableEq, Repr

def retryableByCode (e : JsError) : Bool :=
  e.code = some "ECONNRESET" || e.code = some "ETIMEDOUT" || e.code = some "ENOTFOUND"

/-- `isRetryableError` (src/utils.ts): status present and truthy → retry
exactly on 429 or ≥ 500; otherwise retry exactly on the three network
error codes. -/
def isRetryableError (e : JsError) : Bool :=
  match e.status with
  | some s => if s = 0 then retryableByCode e else (s = 429 || 500 ≤ s)
  | none => retryableByCode e

/-- Modelled from the claim's words, for refutation only: the claim
describes the retryable class as "429, ≥500, or network reset/timeout",
omitting `ENOTFOUND`. -/
def claimRetryableClass (e : JsError) : Bool :=
  (match e.status with
    | some s => s = 429 || 500 ≤ s
    | none => false) ||
    e.code = some "ECONNRESET" || e.code = some "ETIMEDOUT"

/-- `delay = min(baseDelay * 2^attempt, maxDelay)`;
`jitter = delay * 0.25 * (rand - 0.5)`; the sleep is
`Math.floor(delay + jitter)`. -/
def jitteredWait (delay : Nat) (rand : ℚ) : Int :=
  ⌊(delay : ℚ) + (delay : ℚ) * (1 / 4) * (rand - 1 / 2)⌋

/-- The `for (attempt = 0; attempt <= maxRetries; attempt++)` loop of
`retryWithBackoff`, restructured on the remaining retry budget
(`remaining = maxRetries - attempt`, so `remaining = 0` is the
`attempt === maxRetries` break-and-rethrow case, checked before
retryability, as in the source). Returns (outcome, number of invocations,
sleeps performed). -/
def retryGo {V : Type} (baseDelay maxDelay : Nat) (outcomes : Nat → Except JsError V)
    (rand : Nat → ℚ) : Nat → Nat → Except JsError V × Nat × List Int
  | remaining, attempt =>
    match outcomes attempt with
    | Except.ok v => (Except.ok v, 1, [])
    | Except.error e =>
      match remaining with
      | 0 => (Except.error e, 1, [])
      | r + 1 =>
        if isRetryableError e then
          let d := min (baseDelay * 2 ^ attempt) maxDelay
          let w := jitteredWait d (rand attempt)
          let rest := retryGo baseDelay maxDelay outcomes rand r (attempt + 1)
          (rest.1, rest.2.1 + 1, w :: rest.2.2)
        else (Except.error e, 1, [])

/-- `retryWithBackoff(fn, maxRetries, baseDelay, maxDelay)`. -/
def retryWithBackoff {V : Type} (outcomes : Nat → Except JsError V)
    (maxRetries baseDelay maxDelay : Nat) (rand : Nat → ℚ) :
    Except JsError V × Nat × List Int :=
  retryGo baseDelay maxDelay outcomes rand maxRetries 0

lemma retryGo_all_fail {V : Type} (bd md : Nat) (oc : Nat → Except JsError V)
    (rand : Nat → ℚ) (errAt : Nat → JsError) :
    ∀ (rem att : Nat),
      (∀ j, att ≤ j → j ≤ att + rem →
        oc j = Except.error (errAt j) ∧ isRetryableError (errAt j) = true) →
      retryGo bd md oc rand rem att =
        (Except.error (errAt (att + rem)), rem + 1,
          (List.range' att rem).map (fun k => jitteredWait (min (bd * 2 ^ k) md) (rand k))) := by
  intro rem
  induction rem with
  | zero =>
    intro att h
    have h0 := (h att (Nat.le_refl _) (by omega)).1
    simp [retryGo, h0]
  | succ r ih =>
    intro att h
    have h0 := h att (Nat.le_refl _) (by omega)
    have hrec := ih (att + 1) (fun j hj1 hj2 => h j (by omega) (by omega))
    have hn : att + 1 + r = att + (r + 1) := by omega
    simp [retryGo, h0.1, h0.2, hrec, hn, List.range'_succ]

lemma jitteredWait_bounds (d : Nat) (r : ℚ) (h0 : 0 ≤ r) (h1 : r < 1) :
    (3 / 4 : ℚ) * d - 1 < (jitteredWait d r : ℚ) ∧
      (jitteredWait d r : ℚ) ≤ (5 / 4 : ℚ) * d := by
  have hd : (0 : ℚ) ≤ (d : ℚ) := Nat.cast_nonneg d
  constructor
  · have hfl : ((d : ℚ) + (d : ℚ) * (1 / 4) * (r - 1 / 2)) - 1 < (jitteredWait d r : ℚ) :=
      Int.sub_one_lt_floor _
    nlinarith
  · have hfl : (jitteredWait d r : ℚ) ≤ (d : ℚ) + (d : ℚ) * (1 / 4) * (r - 1 / 2) :=
      Int.floor_le _
    nlinarith

/-- C5, counterexample: an error with `code: 'ENOTFOUND'` is outside the
claim's stated retryable class (429, ≥500, network reset/timeout), so the
claim requires it to be re-thrown without any further invocation — but
`isRetryableError` also treats `ENOTFOUND` as retryable, and the executor
invokes the operation a second time (2 invocations) and returns its
success instead of re-throwing. -/
theorem C5_counterexample :
    claimRetryableClass ⟨none, some "ENOTFOUND"⟩ = false ∧
      isRetryableError ⟨none, some "ENOTFOUND"⟩ = true ∧
      retryWithBackoff
          (fun j => if j = 0 then Except.error ⟨none, some "ENOTFOUND"⟩
            else Except.ok (42 : Nat))
          1 1000 60000 (fun _ => 0)
        = (Except.ok 42, 2, [875]) := by
  refine ⟨by decide, by decide, ?_⟩
  have hw : jitteredWait 1000 0 = 875 := by
    simp only [jitteredWait]
    norm_num [Int.floor_eq_iff]
  simp [retryWithBackoff, retryGo, hw,
    (by decide : isRetryableError ⟨none, some "ENOTFOUND"⟩ = true)]

/-- C5 (amended): for the backoff executor (1) a failure whose error is
not retryable — retryable being 429, ≥ 500, or a network
reset/timeout/DNS-not-found code — is re-thrown with no further
invocation of the operation; (2) when every attempt fails retryably the
last error is re-thrown after `maxRetries + 1` invocations, having slept
once per retry with the sleep for retry `k` derived from
`min(baseDelay·2^k, maxDelay)`; (3) each such sleep lies within the ±25%
jitter band (up to the 1ms `Math.floor` rounding). -/
theorem C5_retry_policy :
    (∀ (V : Type) (bd md : Nat) (oc : Nat → Except JsError V) (rand : Nat → ℚ)
        (rem att : Nat) (e : JsError),
        oc att = Except.error e → isRetryableError e = false →
        retryGo bd md oc rand (rem + 1) att = (Except.error e, 1, [])) ∧
    (∀ (V : Type) (bd md mr : Nat) (oc : Nat → Except JsError V) (rand : Nat → ℚ)
        (errAt : Nat → JsError),
        (∀ j, j ≤ mr → oc j = Except.error (errAt j) ∧ isRetryableError (errAt j) = true) →
        retryWithBackoff oc mr bd md rand =
          (Except.error (errAt mr), mr + 1,
            (List.range mr).map (fun k => jitteredWait (min (bd * 2 ^ k) md) (rand k)))) ∧
    (∀ (d : Nat) (r : ℚ), 0 ≤ r → r < 1 →
        (3 / 4 : ℚ) * d - 1 < (jitteredWait d r : ℚ) ∧
          (jitteredWait d r : ℚ) ≤ (5 / 4 : ℚ) * d) := by
  refine ⟨?_, ?_, fun d r h0 h1 => jitteredWait_bounds d r h0 h1⟩
  · intro V bd md oc rand rem att e he hnr
    simp [retryGo, he, hnr]
  · intro V bd md mr oc rand errAt h
    have := retryGo_all_fail bd md oc rand errAt mr 0
      (fun j hj1 hj2 => h j (by omega))
    simpa [retryWithBackoff, List.range_eq_range'] using this

/-- C5 witness: a 404 is re-thrown at once; two consecutive 500s exhaust
`maxRetries = 1` with 2 invocations and one sleep; the jitter bound at
`d = 8`, `r = 1/2`. -/
theorem C5_witness :
    retryGo 1000 60000 (fun _ => (Except.error ⟨some 404, none⟩ : Except JsError Nat))
        (fun _ => 0) 1 0 = (Except.error ⟨some 404, none⟩, 1, []) ∧
      retryWithBackoff (fun _ => (Except.error ⟨some 500, none⟩ : Except JsError Nat))
          1 1000 60000 (fun _ => 1 / 2)
        = (Except.error ⟨some 500, none⟩, 2,
            (List.range 1).map
              (fun k => jitteredWait (min (1000 * 2 ^ k) 60000) ((fun _ => (1 : ℚ) / 2) k))) ∧
      ((3 / 4 : ℚ) * 8 - 1 < (jitteredWait 8 (1 / 2) : ℚ) ∧
        (jitteredWait 8 (1 / 2) : ℚ) ≤ (5 / 4 : ℚ) * 8) :=
  ⟨C5_retry_policy.1 Nat 1000 60000 _ _ 0 0 ⟨some 404, none⟩ rfl (by decide),
   C5_retry_policy.2.1 Nat 1000 60000 1 _ _ (fun _ => ⟨some 500, none⟩)
      (fun j hj => ⟨rfl, (by decide : isRetryableError ⟨some 500, none⟩ = true)⟩),
   C5_retry_policy.2.2 8 (1 / 2) (by norm_num) (by norm_num)⟩

/-! ## The rate limiter (src/utils.ts, `RateLimiter`)

JS numbers are modelled as `ℚ`; `Date.now()` readings (ms) are the `now`
inputs. `refill` and the deduction test of `acquire` are pure state
steps; the sleep between unsuccessful iterations does not change the
token count, so a run of `acquire` calls is a sequence of `acquireStep`s. -/

structure RateLimiterState where
  tokens : ℚ
  lastRefill : ℚ
deriving DecidableEq, Repr

/-- `capacity = burstSize || requestsPerSecond` (JS truthiness: absent or
zero `burstSize` falls back to the rate). -/
def rlCapacity (requestsPerSecond : ℚ) (burstSize : Option ℚ) : ℚ :=
  match burstSize with
  | some b => if b = 0 then requestsPerSecond else b
  | none => requestsPerSecond

/-- `RateLimiter.refill`:
`tokens = min(capacity, tokens + (now - lastRefill) / 1000 * refillRate)`,
`lastRefill = now`. -/
def refill (capacity refillRate : ℚ) (st : RateLimiterState) (now : ℚ) : RateLimiterState :=
  ⟨min capacity (st.tokens + (now - st.lastRefill) / 1000 * refillRate), now⟩

/-- One iteration of the `while (true)` loop of `acquire(n)`: refill,
then either deduct `n` tokens and return (`true`) or keep the refilled
count and report failure (`false`; the source then sleeps and retries). -/
def acquireStep (capacity refillRate : ℚ) (st : RateLimiterState) (now n : ℚ) :
    RateLimiterState × Bool :=
  let st' := refill capacity refillRate st now
  if n ≤ st'.tokens then (⟨st'.tokens - n, st'.lastRefill⟩, true) else (st', false)

/-- Every state visited while executing a sequence of acquire-iterations,
each given by its clock reading and requested token count. -/
def rlStates (capacity refillRate : ℚ) (st : RateLimiterState) :
    List (ℚ × ℚ) → List RateLimiterState
  | [] => [st]
  | c :: rest =>
    st :: rlStates capacity refillRate (acquireStep capacity refillRate st c.1 c.2).1 rest

/-- Clock readings are nondecreasing starting from `t0`. -/
def ClockMono (t0 : ℚ) : List (ℚ × ℚ) → Prop
  | [] => True
  | c :: rest => t0 ≤ c.1 ∧ ClockMono c.1 rest

lemma acquireStep_inv {capacity refillRate : ℚ} (hc : 0 ≤ capacity) (hr : 0 ≤ refillRate)
    {st : RateLimiterState} {now n : ℚ} (h1 : 0 ≤ st.tokens) (h2 : st.tokens ≤ capacity)
    (hmono : st.lastRefill ≤ now) (hn : 0 ≤ n) :
    0 ≤ (acquireStep capacity refillRate st now n).1.tokens ∧
      (acquireStep capacity refillRate st now n).1.tokens ≤ capacity ∧
      (acquireStep capacity refillRate st now n).1.lastRefill = now := by
  have hadd : 0 ≤ (now - st.lastRefill) / 1000 * refillRate := by
    have h1000 : (0 : ℚ) ≤ 1000 := by norm_num
    exact mul_nonneg (div_nonneg (by linarith) h1000) hr
  have htok : 0 ≤ min capacity (st.tokens + (now - st.lastRefill) / 1000 * refillRate) :=
    le_min hc (by linarith)
  have htok2 : min capacity (st.tokens + (now - st.lastRefill) / 1000 * refillRate)
      ≤ capacity := min_le_left _ _
  simp only [acquireStep, refill]
  split
  · rename_i hge
    simp only
    exact ⟨by linarith, by linarith, trivial⟩
  · exact ⟨htok, htok2, rfl⟩

lemma rlStates_inv {capacity refillRate : ℚ} (hc : 0 ≤ capacity) (hr : 0 ≤ refillRate) :
    ∀ (trace : List (ℚ × ℚ)) (st : RateLimiterState),
      0 ≤ st.tokens → st.tokens ≤ capacity →
      (∀ c ∈ trace, 0 ≤ c.2) →
      ClockMono st.lastRefill trace →
      ∀ s ∈ rlStates capacity refillRate st trace,
        0 ≤ s.tokens ∧ s.tokens ≤ capacity := by
  intro trace
  induction trace with
  | nil =>
    intro st h1 h2 _ _ s hs
    simp [rlStates] at hs
    subst hs
    exact ⟨h1, h2⟩
  | cons c rest ih =>
    intro st h1 h2 hns hm s hs
    have hn : 0 ≤ c.2 := hns c (by simp)
    have hstep := acquireStep_inv hc hr h1 h2 hm.1 hn
    simp only [rlStates, List.mem_cons] at hs
    rcases hs with rfl | hs
    · exact ⟨h1, h2⟩
    · refine ih _ hstep.1 hstep.2.1 (fun d hd => hns d (by simp [hd])) ?_ s hs
      rw [hstep.2.2]
      exact hm.2

/-- C9, counterexample: the claim quantifies over *every* sequence of
clock readings. With a clock that jumps backwards (`Date.now()` is not
monotone) the refill adds a negative amount and the token count becomes
negative: capacity 10, rate 1, a successful `acquire(5)` at t = 10000ms,
then an iteration at t = 0 leaves `tokens = -5`. -/
theorem C9_counterexample :
    rlStates 10 1 ⟨10, 10000⟩ [(10000, 5), (0, 1)]
        = [⟨10, 10000⟩, ⟨5, 10000⟩, ⟨-5, 0⟩] ∧
      ¬ (0 ≤ (-5 : ℚ)) := by
  constructor
  · simp only [rlStates, acquireStep, refill]
    norm_num
  · norm_num

/-- C9 (amended): for every run of acquire-iterations with requested
counts `n ≥ 0` and *nondecreasing* clock readings, every reachable state
satisfies `0 ≤ tokens ≤ capacity`; moreover an iteration deducts exactly
`n` tokens when at least `n` are available after refilling and otherwise
leaves the refilled state unchanged, and the refill caps at capacity. -/
theorem C9_rate_limiter :
    (∀ (capacity refillRate : ℚ) (trace : List (ℚ × ℚ)) (t0 : ℚ),
        0 ≤ capacity → 0 ≤ refillRate →
        (∀ c ∈ trace, 0 ≤ c.2) →
        ClockMono t0 trace →
        ∀ s ∈ rlStates capacity refillRate ⟨capacity, t0⟩ trace,
          0 ≤ s.tokens ∧ s.tokens ≤ capacity) ∧
    (∀ (capacity refillRate now n : ℚ) (st : RateLimiterState),
        (refill capacity refillRate st now).tokens ≤ capacity ∧
        ((acquireStep capacity refillRate st now n).2 = true →
          n ≤ (refill capacity refillRate st now).tokens ∧
          (acquireStep capacity refillRate st now n).1.tokens
            = (refill capacity refillRate st now).tokens - n) ∧
        ((acquireStep capacity refillRate st now n).2 = false →
          (acquireStep capacity refillRate st now n).1
            = refill capacity refillRate st now)) := by
  constructor
  · intro capacity refillRate trace t0 hc hr hns hm
    exact rlStates_inv hc hr trace ⟨capacity, t0⟩ (by simpa using hc) (le_refl _) hns hm
  · intro capacity refillRate now n st
    refine ⟨min_le_left _ _, ?_, ?_⟩
    · intro htrue
      simp only [acquireStep] at htrue ⊢
      by_cases hge : n ≤ (refill capacity refillRate st now).tokens
      · rw [if_pos hge]
        exact ⟨hge, rfl⟩
      · rw [if_neg hge] at htrue
        simp at htrue
    · intro hfalse
      simp only [acquireStep] at hfalse ⊢
      by_cases hge : n ≤ (refill capacity refillRate st now).tokens
      · rw [if_pos hge] at hfalse
        simp at hfalse
      · rw [if_neg hge]

/-- C9 witness: a two-step monotone trace (capacity 10, rate 1): acquire 5
at t = 10000, then an iteration at t = 11000; plus the deduction facts of
one concrete step. -/
theorem C9_witness :
    (∀ s ∈ rlStates 10 1 ⟨10, 0⟩ [(10000, 5), (11000, 1)],
        0 ≤ s.tokens ∧ s.tokens ≤ 10) ∧
      (refill 10 1 ⟨5, 10000⟩ 11000).tokens ≤ 10 :=
  ⟨C9_rate_limiter.1 10 1 [(10000, 5), (11000, 1)] 0 (by norm_num) (by norm_num)
      (by intro c hc; simp at hc; rcases hc with rfl | rfl <;> norm_num)
      (by exact ⟨by norm_num, by norm_num, trivial⟩),
   (C9_rate_limiter.2 10 1 11000 1 ⟨5, 10000⟩).1⟩

/-! ## The bounded-concurrency executor (src/utils.ts,
`processWithConcurrency`)

Single-threaded cooperative concurrency: continuations only run at
`await` points. The scheduler is a queue of settlement batches; at each
wait point (`Promise.race` inside the loop, the final `Promise.all`)
batches are consumed — settling an item runs its `.then`/`.catch`
continuation, i.e. stores its outcome at its index — until the wait
condition holds. `results` is the preallocated `new Array(n)`: a `none`
entry is an empty slot. `executing` holds the item indices of the
promises currently in the JS `executing` array. The convoluted
`completedIndices` computation of the source reduces to: if any item in
the window `[i - executing.length + 1, i]` has a stored result, splice
out the *first* element of `executing` (whether or not it settled). -/

def settleBatch (worker : Nat → Nat) (res : List (Option Nat)) (batch : List Nat) :
    List (Option Nat) :=
  batch.foldl (fun r id => r.set id (some (worker id))) res

def isSettled (res : List (Option Nat)) (id : Nat) : Bool :=
  (res.getD id none).isSome

/-- `await Promise.race(executing)`: returns as soon as some promise in
`executing` is settled; otherwise consume the next settlement batch and
re-check. Fails (`none`) if the schedule runs out first. -/
def waitRace (worker : Nat → Nat) :
    Nat → List (Option Nat) → List Nat → List (List Nat) →
      Option (List (Option Nat) × List (List Nat))
  | 0, _, _, _ => none
  | fuel + 1, res, exec, sched =>
    if exec.any (isSettled res) then some (res, sched)
    else
      match sched with
      | [] => none
      | b :: rest => waitRace worker fuel (settleBatch worker res b) exec rest

/-- `await Promise.all(executing)`: returns once every promise still in
`executing` is settled, consuming settlement batches as needed. -/
def waitAllExec (worker : Nat → Nat) :
    Nat → List (Option Nat) → List Nat → List (List Nat) →
      Option (List (Option Nat) × List (List Nat))
  | 0, _, _, _ => none
  | fuel + 1, res, exec, sched =>
    if exec.all (isSettled res) then some (res, sched)
    else
      match sched with
      | [] => none
      | b :: rest => waitAllExec worker fuel (settleBatch worker res b) exec rest

/-- The `for (let i = 0; ...)` loop of `processWithConcurrency` followed
by the final `await Promise.all(executing)`. Creating item `i`'s promise
appends `i` to `executing`; when `executing.length >= concurrency` the
loop races, then — if any item of the window `[i-executing.length+1, i]`
has a stored result — splices out the first element of `executing`
(`executing.splice(0, 1)`), settled or not. -/
def pwcLoop (worker : Nat → Nat) (n conc : Nat) :
    Nat → Nat → List (Option Nat) → List Nat → List (List Nat) →
      Option (List (Option Nat))
  | 0, _, _, _, _ => none
  | fuel + 1, i, res, exec, sched =>
    if i < n then
      let exec' := exec ++ [i]
      if conc ≤ exec'.length then
        match waitRace worker (sched.length + 1) res exec' sched with
        | none => none
        | some (res', sched') =>
          let windowHit := (List.range n).any
            (fun j => decide (i + 1 ≤ j + exec'.length) && decide (j ≤ i) && isSettled res' j)
          let exec'' := if windowHit then exec'.drop 1 else exec'
          pwcLoop worker n conc fuel (i + 1) res' exec'' sched'
      else pwcLoop worker n conc fuel (i + 1) res exec' sched
    else
      match waitAllExec worker (sched.length + 1) res exec sched with
      | none => none
      | some (res', _) => some res'

/-- `processWithConcurrency(items, processor, concurrency)` for `n` items
whose worker fulfils with `worker i`, under a given settlement schedule.
`results` starts as the preallocated empty `new Array(n)`. -/
def processWithConcurrency (worker : Nat → Nat) (n conc : Nat) (sched : List (List Nat)) :
    Option (List (Option Nat)) :=
  pwcLoop worker n conc (n + 1) 0 (List.replicate n none) [] sched

/-- C6 is a code bug, witnessed by evaluation of the cooperative-
scheduling model: 3 items, concurrency 2, and a schedule in which item 1
settles first (during the `Promise.race` for items {0,1}) and item 2
settles during the final `Promise.all`. The splice then removes the still
pending promise of item 0 from `executing`, the final `Promise.all` does
not wait for it, and the function returns with slot 0 of the result array
still empty: item 0 receives no outcome, contradicting the claim (spec §9
itself flags this splice-by-position bug). No failure is even needed —
all three workers succeed. -/
theorem C6_lost_outcome_eval :
    processWithConcurrency (fun i => 10 * i) 3 2 [[1], [2]]
        = some [none, some 10, some 20] ∧
      ¬ (∀ r, processWithConcurrency (fun i => 10 * i) 3 2 [[1], [2]] = some r →
          ∀ o ∈ r, Option.isSome o = true) := by
  refine ⟨by decide, fun h => ?_⟩
  have h0 := h [none, some 10, some 20] (by decide) none (by simp)
  simp at h0

/-! ## The orchestrator (src/indexer.ts, `Indexer.index`)

`index()` wraps its whole body in `try { ... } catch (error) { ... }`.
The collaborators (settings fetch, Pinecone init, post fetch, per-post
processing, final stats fetch) are abstracted into an environment of
outcomes; each `Except.error` models that step throwing. The `catch`
block pushes `Fatal error: ${error.message}` onto whatever `errors` have
accumulated and returns `success: false` with the progress accumulated so
far (`this.progress`). Per-post outcomes mirror `processWithConcurrency`
results: fulfilled with chunk count, fulfilled with `null` (skipped
post), or rejected with a message. -/

structure ProgressM where
  totalPosts : Nat
  processedPosts : Nat
  totalChunks : Nat
  processedChunks : Nat
  errorCount : Nat
deriving DecidableEq, Repr

def zeroProgress : ProgressM := ⟨0, 0, 0, 0, 0⟩

structure ErrEntry where
  post_id : Option Nat
  message : String
deriving DecidableEq, Repr

structure IndexResultM where
  success : Bool
  stats : ProgressM
  errors : List ErrEntry
deriving DecidableEq, Repr

inductive DocOutcome where
  | processed (chunks : Nat)
  | skipped
  | failed (msg : String)

structure IndexEnv where
  settingsResult : Except String Unit
  initResult : Except String Unit
  fetchResult : Except String (List Nat)
  outcome : Nat → DocOutcome
  statsResult : Except String Unit

def fatalMsg (m : String) : String := "Fatal error: " ++ m

/-- `SettingsManager.fetchSettings` (src/settings.ts) on an HTTP error
response: `Failed to fetch settings from ${settingsUrl}:
${status} ${statusText}`. -/
def settingsFetchError (url : String) (status : Nat) (statusText : String) : String :=
  "Failed to fetch settings from " ++ url ++ ": " ++ toString status ++ " " ++ statusText

/-- Steps 4-5 of `index()`: aggregate per-post outcomes into progress
counters and error entries (`Failed to process post ${doc.id}:
${error.message}`), starting from `totalPosts = posts.length`. -/
def processFold (posts : List Nat) (outcome : Nat → DocOutcome) :
    ProgressM × List ErrEntry :=
  posts.foldl
    (fun acc id =>
      match outcome id with
      | DocOutcome.processed c =>
        ({ acc.1 with
            processedPosts := acc.1.processedPosts + 1
            totalChunks := acc.1.totalChunks + c
            processedChunks := acc.1.processedChunks + c }, acc.2)
      | DocOutcome.skipped =>
        ({ acc.1 with processedPosts := acc.1.processedPosts + 1 }, acc.2)
      | DocOutcome.failed m =>
        ({ acc.1 with errorCount := acc.1.errorCount + 1 },
          acc.2 ++ [⟨some id, "Failed to process post " ++ toString id ++ ": " ++ m⟩]))
    ({ zeroProgress with totalPosts := posts.length }, [])

/-- `Indexer.index()` with the `try`/`catch` made explicit: any step that
throws short-circuits into the catch, which records the fatal entry and
reports the progress accumulated so far. -/
def indexModel (env : IndexEnv) : IndexResultM :=
  match env.settingsResult with
  | Except.error m => ⟨false, zeroProgress, [⟨none, fatalMsg m⟩]⟩
  | Except.ok _ =>
    match env.initResult with
    | Except.error m => ⟨false, zeroProgress, [⟨none, fatalMsg m⟩]⟩
    | Except.ok _ =>
      match env.fetchResult with
      | Except.error m => ⟨false, zeroProgress, [⟨none, fatalMsg m⟩]⟩
      | Except.ok posts =>
        let pe := processFold posts env.outcome
        match env.statsResult with
        | Except.error m => ⟨false, pe.1, pe.2 ++ [⟨none, fatalMsg m⟩]⟩
        | Except.ok _ => ⟨pe.2.isEmpty, pe.1, pe.2⟩

/-- C7: `index()` never propagates an exception. (1) A throwing settings
fetch (or init, or fetch — the first stages) yields `success = false`,
all-zero progress and exactly the fatal entry; (2) a throw after
processing (the final stats fetch) yields `success = false` with the
accumulated partial progress and the per-post errors plus the fatal
entry; (3) the HTTP-500 settings scenario returns exactly one error entry
identifying a fatal failure and all-zero progress; (4) a concrete mixed
run (3 posts: 2 chunks, a rejection, a skip; stats fetch throws) keeps
its partial progress `⟨3, 2, 2, 2, 1⟩` and both error entries. -/
theorem C7_index_never_throws :
    (∀ (m : String) (ini : Except String Unit) (fr : Except String (List Nat))
        (oc : Nat → DocOutcome) (st : Except String Unit),
        indexModel ⟨Except.error m, ini, fr, oc, st⟩
          = ⟨false, zeroProgress, [⟨none, fatalMsg m⟩]⟩) ∧
    (∀ (posts : List Nat) (oc : Nat → DocOutcome) (m : String),
        indexModel ⟨Except.ok (), Except.ok (), Except.ok posts, oc, Except.error m⟩
          = ⟨false, (processFold posts oc).1,
              (processFold posts oc).2 ++ [⟨none, fatalMsg m⟩]⟩) ∧
    (∀ (url statusText : String) (ini : Except String Unit) (fr : Except String (List Nat))
        (oc : Nat → DocOutcome) (st : Except String Unit),
        (indexModel ⟨Except.error (settingsFetchError url 500 statusText), ini, fr, oc, st⟩).success
            = false ∧
          (indexModel ⟨Except.error (settingsFetchError url 500 statusText), ini, fr, oc, st⟩).stats
            = zeroProgress ∧
          (indexModel ⟨Except.error (settingsFetchError url 500 statusText), ini, fr, oc, st⟩).errors.length
            = 1) ∧
    indexModel
        ⟨Except.ok (), Except.ok (), Except.ok [1, 2, 3],
          (fun i => if i = 1 then DocOutcome.processed 2
            else if i = 2 then DocOutcome.failed "boom" else DocOutcome.skipped),
          Except.error "stats down"⟩
      = ⟨false, ⟨3, 2, 2, 2, 1⟩,
          [⟨some 2, "Failed to process post 2: boom"⟩, ⟨none, "Fatal error: stats down"⟩]⟩ := by
  refine ⟨fun m ini fr oc st => rfl, fun posts oc m => rfl,
    fun url statusText ini fr oc st => ⟨rfl, rfl, rfl⟩, ?_⟩
  decide
